import Mathlib

/-!
# Verification of `scripts/analyze_savings.py` (mtr-fare-optimization)

Shallow embedding of the fare-table loader (`load_fare_data`) and the
all-pairs savings analyzer (`analyze_savings`).  Fare amounts are modelled
as rationals (`ℚ`); the raw CSV layer is modelled by the outcome of the
Python parsing primitives on each field (`int(s)`, `float(s)`, truthiness).
-/

namespace MTR

/-- A raw CSV field, abstracted by what the Python code observes of it:
its truthiness (`if value`), the result of `int(s)` (`none` models a
`ValueError`), and the result of `float(s)` (`none` models a `ValueError`). -/
structure Field where
  str_nonempty : Bool
  as_int : Option Int
  as_float : Option ℚ
deriving DecidableEq

/-- A CSV row as produced by `csv.DictReader`: column name ↦ raw field,
in header order. -/
abbrev Row := List (String × Field)

/-- Inner mapping of a fare entry: fare-column name ↦ stored value, where
`some q` is a parsed fare and `none` is the explicit invalid marker
(Python `None`); absence of the key is "row never stored this method". -/
abbrev Inner := List (String × Option ℚ)

/-- `fares`: `(origin, destination)` ↦ inner mapping (a `defaultdict(dict)`). -/
abbrev FareTable := List ((Int × Int) × Inner)

/-- Python `dict` lookup on an insertion-ordered association list. -/
def findAssoc {α β : Type} [DecidableEq α] : List (α × β) → α → Option β
  | [], _ => none
  | (x, y) :: rest, a => if x = a then some y else findAssoc rest a

/-- Python `dict` assignment: replace in place, or append at the end. -/
def setAssoc {α β : Type} [DecidableEq α] : List (α × β) → α → β → List (α × β)
  | [], a, b => [(a, b)]
  | (x, y) :: rest, a, b => if x = a then (a, b) :: rest else (x, y) :: setAssoc rest a b

/-- `'FARE' in key` (Python substring test). -/
def hasFareSubstr (s : String) : Bool :=
  s.toList.tails.any fun t => "FARE".toList.isPrefixOf t

/-- `fares[(start_id, dest_id)][key] = v` on a `defaultdict(dict)`. -/
def setFare (tbl : FareTable) (p : Int × Int) (k : String) (v : Option ℚ) : FareTable :=
  setAssoc tbl p (setAssoc ((findAssoc tbl p).getD []) k v)

/-- Lines 35–41: `fare_value = float(value) if value else None;
if fare_value is not None: fares[p][key] = fare_value`
with `except ValueError: fares[p][key] = None`. -/
def storeFare (tbl : FareTable) (p : Int × Int) (k : String) (f : Field) : FareTable :=
  if f.str_nonempty then
    match f.as_float with
    | some q => setFare tbl p k (some q)
    | none => setFare tbl p k none
  else tbl

/-- Lines 33–41: the `for key, value in row.items(): if 'FARE' in key: …` loop. -/
def storeRowFares (tbl : FareTable) (p : Int × Int) (row : Row) : FareTable :=
  row.foldl (fun t kv => if hasFareSubstr kv.1 then storeFare t p kv.1 kv.2 else t) tbl

/-- `stations.add s` on a duplicate-free accumulator list. -/
def addStation (l : List Int) (s : Int) : List Int :=
  if s ∈ l then l else l ++ [s]

/-- Lines 25–44: one iteration of the row loop.  A `ValueError`/`KeyError`
while parsing the station ids skips the row (`continue`); otherwise both
station ids are added to the station set and the fare columns stored. -/
def processRow (acc : FareTable × List Int) (row : Row) : FareTable × List Int :=
  match (findAssoc row "SRC_STATION_ID").bind Field.as_int,
        (findAssoc row "DEST_STATION_ID").bind Field.as_int with
  | some s, some d =>
      (storeRowFares acc.1 (s, d) row, addStation (addStation acc.2 s) d)
  | _, _ => acc

/-- The observable content of the CSV source: whether the file exists,
the header row, and the data rows. -/
structure LoadInput where
  fileExists : Bool
  fieldnames : List String
  rows : List Row

def expected_headers : List String := ["SRC_STATION_ID", "DEST_STATION_ID"]

/-- Lines 12–53: `load_fare_data` on well-shaped rows (every row exactly
as wide as the header, every cell a string).  `none` models the
`return None, None` sentinel (file not found, or required headers
missing); on success the station set is returned as
`sorted(list(stations))`.  On such rows the only exceptions the row loop
can raise are `ValueError`/`KeyError`, which line 42 recovers locally;
`load_fare_data_raw` below extends this model with the short/long-row
anomalies of `csv.DictReader` and the resulting uncaught-`TypeError`
path through the generic handler of lines 48–50
(`loadRaw_toRaw` proves the two agree on well-shaped rows). -/
def load_fare_data (inp : LoadInput) : Option (FareTable × List Int) :=
  if inp.fileExists then
    if expected_headers.all (fun h => inp.fieldnames.contains h) then
      let fs := inp.rows.foldl processRow ([], [])
      some (fs.1, fs.2.insertionSort (· ≤ ·))
    else none
  else none

/-- Lines 136–141: the `__main__` guard `if fare_data and station_list:`.
Python truthiness: an empty dict or empty list is falsy, so analysis runs
only when the load succeeded AND both results are non-empty. -/
def runsAnalysis (inp : LoadInput) : Bool :=
  match load_fare_data inp with
  | none => false
  | some (f, st) => !f.isEmpty && !st.isEmpty

/-- A raw cell as handed out by `csv.DictReader`: either a string value
(abstracted by `Field`) or Python `None` — the `restval` filled in for
the columns a short row is missing. -/
inductive Cell
  | str (f : Field)
  | pynone
deriving DecidableEq

/-- A raw row: dict key ↦ cell, in dict order.  The key `none` models the
`restkey` `None` under which `csv.DictReader` collects the extra cells of
a row that is longer than the header.  `Row` above is the well-shaped
special case (every key a string, every cell a string value). -/
abbrev RawRow := List (Option String × Cell)

/-- Outcome of `int(row[k])` for a station column of a raw row.
`ValueError` (non-numeric string) and `KeyError` (key absent) are caught
by the handler at line 42 and skip the row; `int(None)` — the `restval`
of a short row — raises `TypeError`, which that handler does NOT catch. -/
inductive IntParse
  | ok (n : Int)
  | caught
  | uncaught
deriving DecidableEq

def parseStation (row : RawRow) (k : String) : IntParse :=
  match findAssoc row (some k) with
  | none => IntParse.caught
  | some (Cell.str f) =>
    match f.as_int with
    | some n => IntParse.ok n
    | none => IntParse.caught
  | some Cell.pynone => IntParse.uncaught

/-- Lines 33–41 over a raw row.  At the `restkey` `None` the test
`'FARE' in key` raises `TypeError`, an uncaught exception (`none`);
a `None`-valued cell is falsy, so nothing is stored and nothing is
raised; string cells behave exactly as in `storeFare`. -/
def storeRowFaresRaw (p : Int × Int) : FareTable → RawRow → Option FareTable
  | tbl, [] => some tbl
  | _, (none, _) :: _ => none
  | tbl, (some k, c) :: rest =>
    if hasFareSubstr k then
      match c with
      | Cell.str f => storeRowFaresRaw p (storeFare tbl p k f) rest
      | Cell.pynone => storeRowFaresRaw p tbl rest
    else storeRowFaresRaw p tbl rest

/-- Lines 25–44 for one raw row, with the exception structure of
lines 42–50: a caught `ValueError`/`KeyError` skips the row (`continue`);
an uncaught `TypeError` aborts the whole load (`none`), since only the
generic `except Exception` at lines 48–50 can receive it.  `int` is
applied to the origin column first, so its exception pre-empts the
destination column, and both pre-empt the fare loop. -/
def processRowRaw (acc : FareTable × List Int) (row : RawRow) :
    Option (FareTable × List Int) :=
  match parseStation row "SRC_STATION_ID" with
  | IntParse.uncaught => none
  | IntParse.caught => some acc
  | IntParse.ok s =>
    match parseStation row "DEST_STATION_ID" with
    | IntParse.uncaught => none
    | IntParse.caught => some acc
    | IntParse.ok d =>
      match storeRowFaresRaw (s, d) acc.1 row with
      | some tbl => some (tbl, addStation (addStation acc.2 s) d)
      | none => none

/-- The row loop of lines 25–44: the first uncaught exception aborts
everything (all rows already loaded are discarded with the local
`fares`/`stations`). -/
def loadRowsRaw : List RawRow → FareTable × List Int → Option (FareTable × List Int)
  | [], acc => some acc
  | r :: rest, acc =>
    match processRowRaw acc r with
    | some acc2 => loadRowsRaw rest acc2
    | none => none

/-- The observable content of the CSV source, with raw rows. -/
structure RawLoadInput where
  fileExists : Bool
  fieldnames : List String
  rows : List RawRow

/-- Lines 12–53 of `load_fare_data` with the full error taxonomy: the
`None, None` sentinel is produced by a missing file (line 45), a missing
required header (line 21), or any uncaught exception escaping the row
loop into the generic `except Exception` of lines 48–50 — e.g.
`TypeError` from `int(None)` on a short row, or from `'FARE' in None`
on a long row's restkey. -/
def load_fare_data_raw (inp : RawLoadInput) : Option (FareTable × List Int) :=
  if inp.fileExists then
    if expected_headers.all (fun h => inp.fieldnames.contains h) then
      match loadRowsRaw inp.rows ([], []) with
      | some fs => some (fs.1, fs.2.insertionSort (· ≤ ·))
      | none => none
    else none
  else none

/-- Lines 136–141 over the raw loader: the `if fare_data and
station_list:` truthiness guard. -/
def runsAnalysisRaw (inp : RawLoadInput) : Bool :=
  match load_fare_data_raw inp with
  | none => false
  | some (f, st) => !f.isEmpty && !st.isEmpty

/-- Embedding of a well-shaped row into raw rows. -/
def Row.toRaw (r : Row) : RawRow :=
  r.map fun kv => (some kv.1, Cell.str kv.2)

/-- `fares.get((o, d), {}).get(m)`: `none` both when the pair is absent and
when the stored value is the invalid marker `None`. -/
def getFare (tbl : FareTable) (o d : Int) (m : String) : Option ℚ :=
  match findAssoc tbl (o, d) with
  | none => none
  | some inner =>
    match findAssoc inner m with
    | none => none
    | some v => v

/-- Raw storage view: `some v` iff key `k` is present in the inner dict of
pair `p` (with `v = none` the explicit invalid marker). -/
def getStored (tbl : FareTable) (p : Int × Int) (k : String) : Option (Option ℚ) :=
  (findAssoc tbl p).bind fun inner => findAssoc inner k

/-- `c < min_intermediate_fare` where the running minimum starts at
`float('inf')`, modelled by `none`. -/
def ltInf (c : ℚ) : Option ℚ → Bool
  | none => true
  | some m => decide (c < m)

/-- Lines 80–98: one iteration of the intermediate-station loop, on the
state `(min_intermediate_fare, optimal_intermediate_station)`. -/
def innerStep (fares : FareTable) (m : String) (o d : Int)
    (st : Option ℚ × Option Int) (i : Int) : Option ℚ × Option Int :=
  if i = o ∨ i = d then st
  else
    match getFare fares o i m, getFare fares i d m with
    | some f1, some f2 =>
        if ltInf (f1 + f2) st.1 then (some (f1 + f2), some i) else st
    | _, _ => st

/-- Lines 68–104 for one ordered pair `(o, d)`: the recorded saving, if any. -/
def pairSaving (fares : FareTable) (stations : List Int) (m : String)
    (o d : Int) : Option ℚ :=
  match getFare fares o d m with
  | none => none
  | some direct =>
    let st := stations.foldl (innerStep fares m o d) (none, none)
    match st.2, st.1 with
    | some _, some c => if c < direct then some (direct - c) else none
    | _, _ => none

structure AnalysisResult where
  saving_pairs_count : Nat
  total_pairs_analyzed : Nat
  savings_list : List ℚ
deriving DecidableEq

/-- `itertools.permutations(stations, 2)` on a duplicate-free list: all
ordered pairs of distinct elements, first component in list order, second
component in list order among the remaining elements. -/
def perm2 (l : List Int) : List (Int × Int) :=
  l.flatMap fun a => (l.filter fun b => b ≠ a).map fun b => (a, b)

/-- Lines 66–104: one iteration of the pair loop. -/
def pairStep (fares : FareTable) (stations : List Int) (m : String)
    (acc : AnalysisResult) (p : Int × Int) : AnalysisResult :=
  let acc' : AnalysisResult :=
    { acc with total_pairs_analyzed := acc.total_pairs_analyzed + 1 }
  match pairSaving fares stations m p.1 p.2 with
  | some s =>
      { acc' with
        saving_pairs_count := acc'.saving_pairs_count + 1
        savings_list := acc'.savings_list ++ [s] }
  | none => acc'

/-- Lines 55–131: `analyze_savings`.  `none` models the early
`return 0` on `if not fares or not stations` (no pair loop, no report). -/
def analyze_savings (fares : FareTable) (stations : List Int) (m : String) :
    Option AnalysisResult :=
  if fares.isEmpty || stations.isEmpty then none
  else some ((perm2 stations).foldl (pairStep fares stations m) ⟨0, 0, []⟩)

/-- Python `min(list)` (`none` on the empty list, where Python raises). -/
def listMin : List ℚ → Option ℚ
  | [] => none
  | x :: xs => some (xs.foldl min x)

/-- Python `max(list)`. -/
def listMax : List ℚ → Option ℚ
  | [] => none
  | x :: xs => some (xs.foldl max x)

/-- `statistics.mean`: sum divided by length. -/
def meanQ (l : List ℚ) : ℚ := l.sum / l.length

/-- `statistics.median`: middle of the sorted list, averaging the two
middle elements when the length is even. -/
def medianQ (l : List ℚ) : ℚ :=
  let s := l.insertionSort (· ≤ ·)
  let n := s.length
  if n % 2 = 1 then s.getD (n / 2) 0
  else (s.getD (n / 2 - 1) 0 + s.getD (n / 2) 0) / 2

structure Stats where
  min_saving : ℚ
  max_saving : ℚ
  avg_saving : ℚ
  median_saving : ℚ
deriving DecidableEq

/-- Lines 117–129: statistics are computed only `if savings_list:`;
`none` models the `"No savings found"` branch. -/
def computeStats (l : List ℚ) : Option Stats :=
  if l.isEmpty then none
  else some ⟨(listMin l).getD 0, (listMax l).getD 0, meanQ l, medianQ l⟩

/-- Spec-side description of the usable intermediates for a pair `(o, d)`:
each station `i ∉ {o, d}` whose two legs both have usable fares, with its
combined fare, in station-iteration order. -/
def usablePairs (fares : FareTable) (stations : List Int) (m : String)
    (o d : Int) : List (Int × ℚ) :=
  (stations.filter fun i => ¬(i = o ∨ i = d)).filterMap fun i =>
    match getFare fares o i m, getFare fares i d m with
    | some f1, some f2 => some (i, f1 + f2)
    | _, _ => none

/-- The combined fares of the usable intermediates, in iteration order. -/
def usableCombined (fares : FareTable) (stations : List Int) (m : String)
    (o d : Int) : List ℚ :=
  (usablePairs fares stations m o d).map Prod.snd

/-- The intermediate-loop step of lines 93–98, restricted to the usable
intermediates (station, combined fare). -/
def minStep (st : Option ℚ × Option Int) (p : Int × ℚ) : Option ℚ × Option Int :=
  if ltInf p.2 st.1 then (some p.2, some p.1) else st

/-! Concrete inputs used in witnesses and counterexamples. -/

/-- Scenario 1 of the spec: fares 1→2 = 10, 2→3 = 3, 1→3 = 20. -/
def fares0 : FareTable :=
  [((1, 2), [("OCT_ADT_FARE", some 10)]),
   ((2, 3), [("OCT_ADT_FARE", some 3)]),
   ((1, 3), [("OCT_ADT_FARE", some 20)])]

/-- A row whose origin-station field does not parse as an integer. -/
def row_bad : Row :=
  [("SRC_STATION_ID", ⟨true, none, none⟩),
   ("DEST_STATION_ID", ⟨true, some 2, none⟩),
   ("OCT_ADT_FARE", ⟨true, none, some 10⟩)]

/-- A well-formed source whose single data row is malformed (row-level
problem only). -/
def inp_badrow : LoadInput :=
  ⟨true, ["SRC_STATION_ID", "DEST_STATION_ID", "OCT_ADT_FARE"], [row_bad]⟩

/-- A row whose fare field parses as the negative number `-5`. -/
def row_neg : Row :=
  [("SRC_STATION_ID", ⟨true, some 1, none⟩),
   ("DEST_STATION_ID", ⟨true, some 2, none⟩),
   ("OCT_ADT_FARE", ⟨true, none, some (-5)⟩)]

/-- A well-formed source carrying a negative fare value. -/
def inp_neg : LoadInput :=
  ⟨true, ["SRC_STATION_ID", "DEST_STATION_ID", "OCT_ADT_FARE"], [row_neg]⟩

/-- The net effect of one row's fare loop (lines 33–41) on the stored entry
for fare column `k`: `some v` when some item of the row overwrites the entry
with `v` (the last nonempty fare field for `k` wins), `none` when the row
leaves the entry untouched. -/
def rowEffect : Row → String → Option (Option ℚ)
  | [], _ => none
  | kv :: rest, k =>
    match rowEffect rest k with
    | some v => some v
    | none =>
      if hasFareSubstr kv.1 ∧ kv.1 = k ∧ kv.2.str_nonempty then some kv.2.as_float
      else none

/-- All amounts stored in the table (excluding invalid markers) are
non-negative. -/
def TableNonneg (tbl : FareTable) : Prop :=
  ∀ p k q, getStored tbl p k = some (some q) → 0 ≤ q

instance : DecidableEq (FareTable × List Int) := instDecidableEqProd

/-- A row for pair (1,2) with fare field 10. -/
def row_dup1 : Row :=
  [("SRC_STATION_ID", ⟨true, some 1, none⟩),
   ("DEST_STATION_ID", ⟨true, some 2, none⟩),
   ("OCT_ADT_FARE", ⟨true, none, some 10⟩)]

/-- A second row for pair (1,2) whose fare field is empty. -/
def row_dup2 : Row :=
  [("SRC_STATION_ID", ⟨true, some 1, none⟩),
   ("DEST_STATION_ID", ⟨true, some 2, none⟩),
   ("OCT_ADT_FARE", ⟨false, none, none⟩)]

/-- A well-formed source whose single row carries the non-negative fare 10. -/
def inp_pos : LoadInput :=
  ⟨true, ["SRC_STATION_ID", "DEST_STATION_ID", "OCT_ADT_FARE"], [row_dup1]⟩

/-- `csv.DictReader`'s view of the short data row "1" under the
three-column header: the missing columns are filled with the restval
`None`. -/
def row_short : RawRow :=
  [(some "SRC_STATION_ID", Cell.str ⟨true, some 1, none⟩),
   (some "DEST_STATION_ID", Cell.pynone),
   (some "OCT_ADT_FARE", Cell.pynone)]

/-- The well-shaped row for (1, 2) with fare 10, in raw form. -/
def row_raw_ok : RawRow := Row.toRaw row_dup1

/-- A source whose file exists and whose header is complete, holding a
good row followed by a short row — a row-level malformation only. -/
def inp_short : RawLoadInput :=
  ⟨true, ["SRC_STATION_ID", "DEST_STATION_ID", "OCT_ADT_FARE"],
   [row_raw_ok, row_short]⟩

/-! ## Lemmas about the association-list store -/

theorem findAssoc_setAssoc {α β : Type} [DecidableEq α]
    (l : List (α × β)) (a : α) (b : β) (x : α) :
    findAssoc (setAssoc l a b) x = if a = x then some b else findAssoc l x := by
  induction l with
  | nil => by_cases h : a = x <;> simp [setAssoc, findAssoc, h]
  | cons hd tl ih =>
    obtain ⟨y, z⟩ := hd
    by_cases hy : y = a
    · subst hy
      by_cases hx : y = x <;> simp [setAssoc, findAssoc, hx]
    · by_cases hx : y = x
      · subst hx
        have hay : ¬ a = y := fun h => hy h.symm
        simp [setAssoc, hy, findAssoc, hay]
      · simp [setAssoc, hy, findAssoc, hx, ih]

theorem getStored_setFare (tbl : FareTable) (p : Int × Int) (k : String)
    (v : Option ℚ) (p' : Int × Int) (k' : String) :
    getStored (setFare tbl p k v) p' k' =
      if p = p' ∧ k = k' then some v else getStored tbl p' k' := by
  unfold getStored setFare
  rw [findAssoc_setAssoc]
  by_cases hp : p = p'
  · subst hp
    rw [if_pos rfl, Option.some_bind, findAssoc_setAssoc]
    by_cases hk : k = k'
    · simp [hk]
    · simp only [hk, if_neg, and_false, if_false]
      cases h : findAssoc tbl p <;> simp [h, findAssoc]
  · simp [hp]

theorem getStored_storeFare (tbl : FareTable) (p : Int × Int) (k : String)
    (f : Field) (p' : Int × Int) (k' : String) :
    getStored (storeFare tbl p k f) p' k' =
      if f.str_nonempty ∧ p = p' ∧ k = k' then some f.as_float
      else getStored tbl p' k' := by
  unfold storeFare
  cases hne : f.str_nonempty
  · simp
  · cases haf : f.as_float <;> simp [getStored_setFare, haf]

theorem storeFare_of_empty (tbl : FareTable) (p : Int × Int) (k : String)
    (f : Field) (h : f.str_nonempty = false) : storeFare tbl p k f = tbl := by
  unfold storeFare
  rw [h]
  simp

theorem getStored_storeRowFares (row : Row) :
    ∀ (tbl : FareTable) (p p' : Int × Int) (k' : String),
    getStored (storeRowFares tbl p row) p' k' =
      if p = p' then
        match rowEffect row k' with
        | some v => some v
        | none => getStored tbl p' k'
      else getStored tbl p' k' := by
  induction row with
  | nil =>
    intro tbl p p' k'
    by_cases hp : p = p' <;> simp [storeRowFares, rowEffect, hp]
  | cons kv rest ih =>
    obtain ⟨kk, kf⟩ := kv
    intro tbl p p' k'
    have hcons : storeRowFares tbl p ((kk, kf) :: rest) =
        storeRowFares (if hasFareSubstr kk then storeFare tbl p kk kf else tbl) p rest := by
      simp [storeRowFares]
    rw [hcons, ih]
    by_cases hp : p = p'
    · subst hp
      cases hre : rowEffect rest k' with
      | some v => simp [rowEffect, hre]
      | none =>
        simp only [rowEffect, hre, if_pos rfl]
        by_cases hfk : hasFareSubstr kk
        · rw [if_pos hfk, getStored_storeFare]
          by_cases hk : kk = k'
          · subst hk
            cases hne : kf.str_nonempty
            · simp [hfk, hne]
            · simp [hfk, hne]
          · simp [hfk, hk]
        · simp [hfk]
    · by_cases hfk : hasFareSubstr kk
      · simp [hp, hfk, getStored_storeFare]
      · simp [hp, hfk]

/-! ## The running minimum of the intermediate loop -/

theorem foldl_min_le_init (l : List ℚ) : ∀ m0 : ℚ, l.foldl min m0 ≤ m0 := by
  induction l with
  | nil => intro m0; simp
  | cons c rest ih =>
    intro m0
    calc (c :: rest).foldl min m0 = rest.foldl min (min m0 c) := rfl
    _ ≤ min m0 c := ih _
    _ ≤ m0 := min_le_left _ _

theorem foldl_min_le_mem (l : List ℚ) :
    ∀ (m0 x : ℚ), x ∈ l → l.foldl min m0 ≤ x := by
  induction l with
  | nil => intro _ x hx; cases hx
  | cons c rest ih =>
    intro m0 x hx
    rcases List.mem_cons.mp hx with h | h
    · subst h
      calc (x :: rest).foldl min m0 = rest.foldl min (min m0 x) := rfl
      _ ≤ min m0 x := foldl_min_le_init _ _
      _ ≤ x := min_le_right _ _
    · exact ih _ _ h

theorem foldl_min_mem_or (l : List ℚ) :
    ∀ m0 : ℚ, l.foldl min m0 = m0 ∨ l.foldl min m0 ∈ l := by
  induction l with
  | nil => intro _; left; rfl
  | cons c rest ih =>
    intro m0
    rcases ih (min m0 c) with h | h
    · rcases min_choice m0 c with hmc | hmc
      · left
        calc (c :: rest).foldl min m0 = rest.foldl min (min m0 c) := rfl
        _ = min m0 c := h
        _ = m0 := hmc
      · right
        have : (c :: rest).foldl min m0 = c := by
          calc (c :: rest).foldl min m0 = rest.foldl min (min m0 c) := rfl
          _ = min m0 c := h
          _ = c := hmc
        rw [this]
        exact List.mem_cons_self _ _
    · right
      exact List.mem_cons_of_mem _ h

theorem listMin_spec (l : List ℚ) (m : ℚ) (h : listMin l = some m) :
    m ∈ l ∧ ∀ x ∈ l, m ≤ x := by
  cases l with
  | nil => cases h
  | cons c rest =>
    simp only [listMin, Option.some.injEq] at h
    subst h
    refine ⟨?_, ?_⟩
    · rcases foldl_min_mem_or rest c with h | h
      · rw [h]; exact List.mem_cons_self _ _
      · exact List.mem_cons_of_mem _ h
    · intro x hx
      rcases List.mem_cons.mp hx with h | h
      · rw [h]; exact foldl_min_le_init _ _
      · exact foldl_min_le_mem _ _ _ h

theorem listMin_eq_none_iff (l : List ℚ) : listMin l = none ↔ l = [] := by
  cases l <;> simp [listMin]

theorem foldl_max_ge_init (l : List ℚ) : ∀ m0 : ℚ, m0 ≤ l.foldl max m0 := by
  induction l with
  | nil => intro m0; simp
  | cons c rest ih =>
    intro m0
    calc m0 ≤ max m0 c := le_max_left _ _
    _ ≤ rest.foldl max (max m0 c) := ih _
    _ = (c :: rest).foldl max m0 := rfl

theorem foldl_max_ge_mem (l : List ℚ) :
    ∀ (m0 x : ℚ), x ∈ l → x ≤ l.foldl max m0 := by
  induction l with
  | nil => intro _ x hx; cases hx
  | cons c rest ih =>
    intro m0 x hx
    rcases List.mem_cons.mp hx with h | h
    · subst h
      calc x ≤ max m0 x := le_max_right _ _
      _ ≤ rest.foldl max (max m0 x) := foldl_max_ge_init _ _
      _ = (x :: rest).foldl max m0 := rfl
    · exact ih _ _ h

theorem listMax_spec (l : List ℚ) (m : ℚ) (h : listMax l = some m) :
    ∀ x ∈ l, x ≤ m := by
  cases l with
  | nil => cases h
  | cons c rest =>
    simp only [listMax, Option.some.injEq] at h
    subst h
    intro x hx
    rcases List.mem_cons.mp hx with h | h
    · rw [h]; exact foldl_max_ge_init _ _
    · exact foldl_max_ge_mem _ _ _ h

theorem foldl_minStep_aux (l : List (Int × ℚ)) :
    ∀ (m0 : ℚ) (i0 : Int),
    l.foldl minStep (some m0, some i0) =
      (some ((l.map Prod.snd).foldl min m0),
       if (l.map Prod.snd).foldl min m0 = m0 then some i0
       else (l.find? fun p => p.2 = (l.map Prod.snd).foldl min m0).map Prod.fst) := by
  induction l with
  | nil => intro m0 i0; simp
  | cons a rest ih =>
    obtain ⟨ai, ac⟩ := a
    intro m0 i0
    rw [List.foldl_cons]
    by_cases hc : ac < m0
    · have hstep : minStep (some m0, some i0) (ai, ac) = (some ac, some ai) := by
        simp [minStep, ltInf, hc]
      rw [hstep, ih]
      have hmin : min m0 ac = ac := min_eq_right (le_of_lt hc)
      have hmt : (((ai, ac) :: rest).map Prod.snd).foldl min m0
          = (rest.map Prod.snd).foldl min ac := by
        simp [hmin]
      have hle : (rest.map Prod.snd).foldl min ac ≤ ac := foldl_min_le_init _ _
      have hne : ¬ (rest.map Prod.snd).foldl min ac = m0 :=
        fun h => absurd (lt_of_le_of_lt (h ▸ hle) hc) (lt_irrefl m0)
      rw [hmt, if_neg hne]
      refine Prod.ext rfl ?_
      by_cases hac : (rest.map Prod.snd).foldl min ac = ac
      · rw [if_pos hac, List.find?_cons_of_pos _ (by simp [hac])]
        rfl
      · have hac' : ¬ (ac = (rest.map Prod.snd).foldl min ac) := fun h => hac h.symm
        rw [if_neg hac, List.find?_cons_of_neg _ (by simpa using hac')]
    · have hstep : minStep (some m0, some i0) (ai, ac) = (some m0, some i0) := by
        simp [minStep, ltInf, hc]
      rw [hstep, ih]
      have hmin : min m0 ac = m0 := min_eq_left (not_lt.mp hc)
      have hmt : (((ai, ac) :: rest).map Prod.snd).foldl min m0
          = (rest.map Prod.snd).foldl min m0 := by
        simp [hmin]
      rw [hmt]
      refine Prod.ext rfl ?_
      by_cases hm : (rest.map Prod.snd).foldl min m0 = m0
      · rw [if_pos hm, if_pos hm]
      · have hlt : (rest.map Prod.snd).foldl min m0 < m0 :=
          lt_of_le_of_ne (foldl_min_le_init _ _) hm
        have hacne : ¬ (ac = (rest.map Prod.snd).foldl min m0) := by
          intro h
          rw [h] at hc
          exact hc hlt
        rw [if_neg hm, if_neg hm, List.find?_cons_of_neg _ (by simpa using hacne)]

theorem foldl_minStep_none (l : List (Int × ℚ)) :
    l.foldl minStep (none, none) =
      match listMin (l.map Prod.snd) with
      | none => (none, none)
      | some mn => (some mn, (l.find? fun p => p.2 = mn).map Prod.fst) := by
  cases l with
  | nil => simp [listMin]
  | cons a rest =>
    obtain ⟨ai, ac⟩ := a
    rw [List.foldl_cons]
    have hstep : minStep (none, none) (ai, ac) = (some ac, some ai) := by
      simp [minStep, ltInf]
    rw [hstep, foldl_minStep_aux]
    simp only [List.map_cons, listMin]
    refine Prod.ext rfl ?_
    by_cases hac : (rest.map Prod.snd).foldl min ac = ac
    · rw [if_pos hac, List.find?_cons_of_pos _ (by simp [hac])]
      rfl
    · have hac' : ¬ (ac = (rest.map Prod.snd).foldl min ac) := fun h => hac h.symm
      rw [if_neg hac, List.find?_cons_of_neg _ (by simpa using hac')]

/-! ## Characterization of the per-pair computation -/

theorem usablePairs_cons_skip (fares : FareTable) (m : String) (o d i : Int)
    (rest : List Int) (hio : i = o ∨ i = d) :
    usablePairs fares (i :: rest) m o d = usablePairs fares rest m o d := by
  rcases hio with h | h <;> subst h <;> simp [usablePairs]

theorem foldl_innerStep_eq (fares : FareTable) (m : String) (o d : Int)
    (stations : List Int) :
    ∀ st, stations.foldl (innerStep fares m o d) st =
      (usablePairs fares stations m o d).foldl minStep st := by
  induction stations with
  | nil => intro st; simp [usablePairs]
  | cons i rest ih =>
    intro st
    rw [List.foldl_cons]
    by_cases hio : i = o ∨ i = d
    · have h1 : innerStep fares m o d st i = st := by simp [innerStep, hio]
      rw [h1, usablePairs_cons_skip _ _ _ _ _ _ hio, ih]
    · have hio1 : ¬ i = o := fun h => hio (Or.inl h)
      have hio2 : ¬ i = d := fun h => hio (Or.inr h)
      cases hf1 : getFare fares o i m with
      | none =>
        have h1 : innerStep fares m o d st i = st := by simp [innerStep, hio, hf1]
        have h2 : usablePairs fares (i :: rest) m o d = usablePairs fares rest m o d := by
          simp [usablePairs, hio1, hio2, hf1]
        rw [h1, h2, ih]
      | some f1 =>
        cases hf2 : getFare fares i d m with
        | none =>
          have h1 : innerStep fares m o d st i = st := by
            simp [innerStep, hio, hf1, hf2]
          have h2 : usablePairs fares (i :: rest) m o d = usablePairs fares rest m o d := by
            simp [usablePairs, hio1, hio2, hf1, hf2]
          rw [h1, h2, ih]
        | some f2 =>
          have h1 : innerStep fares m o d st i = minStep st (i, f1 + f2) := by
            simp [innerStep, hio, hf1, hf2, minStep]
          have h2 : usablePairs fares (i :: rest) m o d =
              (i, f1 + f2) :: usablePairs fares rest m o d := by
            simp [usablePairs, hio1, hio2, hf1, hf2]
          rw [h1, h2, ih, List.foldl_cons]

theorem pairSaving_direct (fares : FareTable) (stations : List Int) (m : String)
    (o d : Int) (direct : ℚ) (hd : getFare fares o d m = some direct) :
    pairSaving fares stations m o d =
      match listMin (usableCombined fares stations m o d) with
      | none => none
      | some c => if c < direct then some (direct - c) else none := by
  unfold pairSaving
  rw [hd, foldl_innerStep_eq, foldl_minStep_none]
  cases hmn : listMin ((usablePairs fares stations m o d).map Prod.snd) with
  | none => simp [usableCombined, hmn]
  | some mn =>
    have hmem : mn ∈ (usablePairs fares stations m o d).map Prod.snd :=
      (listMin_spec _ _ hmn).1
    obtain ⟨p, hp, hpm⟩ := List.mem_map.mp hmem
    have hfind : ((usablePairs fares stations m o d).find?
        fun q => q.2 = mn).isSome := by
      rw [List.find?_isSome]
      exact ⟨p, hp, decide_eq_true hpm⟩
    obtain ⟨q, hq⟩ := Option.isSome_iff_exists.mp hfind
    simp [usableCombined, hmn, hq]

theorem pairSaving_none_of_direct (fares : FareTable) (stations : List Int)
    (m : String) (o d : Int) (h : getFare fares o d m = none) :
    pairSaving fares stations m o d = none := by
  unfold pairSaving
  rw [h]

theorem pairSaving_pos (fares : FareTable) (stations : List Int) (m : String)
    (o d : Int) (s : ℚ) (h : pairSaving fares stations m o d = some s) : 0 < s := by
  cases hd : getFare fares o d m with
  | none =>
    rw [pairSaving_none_of_direct _ _ _ _ _ hd] at h
    cases h
  | some direct =>
    rw [pairSaving_direct _ _ _ _ _ _ hd] at h
    cases hmn : listMin (usableCombined fares stations m o d) with
    | none => rw [hmn] at h; cases h
    | some c =>
      rw [hmn] at h
      change (if c < direct then some (direct - c) else none) = some s at h
      by_cases hlt : c < direct
      · rw [if_pos hlt] at h
        injection h with h
        rw [← h]
        exact sub_pos.mpr hlt
      · rw [if_neg hlt] at h
        cases h

/-! ## The pair loop and the permutation enumeration -/

theorem pairStep_none (fares : FareTable) (stations : List Int) (m : String)
    (acc : AnalysisResult) (p : Int × Int)
    (h : pairSaving fares stations m p.1 p.2 = none) :
    pairStep fares stations m acc p =
      { acc with total_pairs_analyzed := acc.total_pairs_analyzed + 1 } := by
  unfold pairStep
  rw [h]

theorem pairStep_some (fares : FareTable) (stations : List Int) (m : String)
    (acc : AnalysisResult) (p : Int × Int) (s : ℚ)
    (h : pairSaving fares stations m p.1 p.2 = some s) :
    pairStep fares stations m acc p =
      ⟨acc.saving_pairs_count + 1, acc.total_pairs_analyzed + 1,
       acc.savings_list ++ [s]⟩ := by
  unfold pairStep
  rw [h]

theorem foldl_pairStep (fares : FareTable) (stations : List Int) (m : String)
    (ps : List (Int × Int)) :
    ∀ acc : AnalysisResult,
    ps.foldl (pairStep fares stations m) acc =
      ⟨acc.saving_pairs_count +
         (ps.filterMap fun p => pairSaving fares stations m p.1 p.2).length,
       acc.total_pairs_analyzed + ps.length,
       acc.savings_list ++ (ps.filterMap fun p => pairSaving fares stations m p.1 p.2)⟩ := by
  induction ps with
  | nil => intro acc; simp
  | cons p rest ih =>
    intro acc
    rw [List.foldl_cons]
    cases hs : pairSaving fares stations m p.1 p.2 with
    | none =>
      rw [pairStep_none _ _ _ _ _ hs, ih]
      simp only [List.filterMap_cons, hs, AnalysisResult.mk.injEq, List.length_cons]
      refine ⟨by trivial, by omega, by trivial⟩
    | some s =>
      rw [pairStep_some _ _ _ _ _ _ hs, ih]
      simp only [List.filterMap_cons, hs, AnalysisResult.mk.injEq, List.length_cons]
      refine ⟨by omega, by omega, by simp⟩

theorem analyze_savings_some (fares : FareTable) (stations : List Int)
    (m : String) (r : AnalysisResult)
    (h : analyze_savings fares stations m = some r) :
    r = ⟨((perm2 stations).filterMap fun p => pairSaving fares stations m p.1 p.2).length,
         (perm2 stations).length,
         (perm2 stations).filterMap fun p => pairSaving fares stations m p.1 p.2⟩ := by
  unfold analyze_savings at h
  by_cases hc : (fares.isEmpty || stations.isEmpty) = true
  · rw [if_pos hc] at h
    cases h
  · rw [if_neg hc] at h
    injection h with h
    rw [← h, foldl_pairStep]
    simp

theorem filter_ne_length (l : List Int) (a : Int) (h : l.Nodup) (ha : a ∈ l) :
    (l.filter fun b => b ≠ a).length = l.length - 1 := by
  induction l with
  | nil => cases ha
  | cons x rest ih =>
    have hx : x ∉ rest := (List.nodup_cons.mp h).1
    have hrest : rest.Nodup := (List.nodup_cons.mp h).2
    rcases List.mem_cons.mp ha with hxa | hmem
    · subst hxa
      have hfa : rest.filter (fun b => b ≠ a) = rest := by
        apply List.filter_eq_self.mpr
        intro b hb
        have hne : b ≠ a := fun hba => hx (hba ▸ hb)
        simpa using hne
      rw [List.filter_cons_of_neg (by simp), hfa]
      simp
    · have hxa : ¬ (x = a) := fun he => hx (he ▸ hmem)
      have hlen := ih hrest hmem
      have hpos : 0 < rest.length := List.length_pos.mpr (List.ne_nil_of_mem hmem)
      rw [List.filter_cons_of_pos (by simpa using hxa)]
      simp only [List.length_cons, hlen]
      omega

theorem sum_map_const (l : List Int) (c : Nat) :
    (l.map fun _ => c).sum = l.length * c := by
  induction l with
  | nil => simp
  | cons x rest ih =>
    simp only [List.map_cons, List.sum_cons, ih, List.length_cons, Nat.succ_mul]
    omega

theorem perm2_length (l : List Int) (h : l.Nodup) :
    (perm2 l).length = l.length * (l.length - 1) := by
  unfold perm2
  rw [List.length_flatMap]
  have hmap : (l.map fun a =>
      (((l.filter fun b => b ≠ a).map fun b => ((a, b) : Int × Int)).length))
      = l.map fun _ => l.length - 1 := by
    apply List.map_congr_left
    intro a ha
    rw [List.length_map]
    exact filter_ne_length l a h ha
  have hcomp : (List.map (List.length ∘ fun a =>
      (l.filter fun b => b ≠ a).map fun b => ((a, b) : Int × Int)) l)
      = l.map fun _ => l.length - 1 := by
    rw [← hmap]
    rfl
  rw [hcomp, sum_map_const]

/-! ## Loader lemmas: station set and nonnegativity -/

theorem addStation_nodup (l : List Int) (s : Int) (h : l.Nodup) :
    (addStation l s).Nodup := by
  unfold addStation
  by_cases hs : s ∈ l
  · simpa [hs] using h
  · rw [if_neg hs, List.nodup_append]
    refine ⟨h, List.nodup_singleton s, ?_⟩
    intro a ha hmem
    rcases List.mem_singleton.mp hmem with rfl
    exact hs ha

theorem processRow_stations_nodup (acc : FareTable × List Int) (row : Row)
    (h : acc.2.Nodup) : (processRow acc row).2.Nodup := by
  unfold processRow
  cases h1 : (findAssoc row "SRC_STATION_ID").bind Field.as_int with
  | none => exact h
  | some s =>
    cases h2 : (findAssoc row "DEST_STATION_ID").bind Field.as_int with
    | none => exact h
    | some d => exact addStation_nodup _ _ (addStation_nodup _ _ h)

theorem fold_stations_nodup (rows : List Row) :
    ∀ acc : FareTable × List Int, acc.2.Nodup →
    (rows.foldl processRow acc).2.Nodup := by
  induction rows with
  | nil => intro acc h; exact h
  | cons r rest ih =>
    intro acc h
    rw [List.foldl_cons]
    exact ih _ (processRow_stations_nodup _ _ h)

theorem sorted_lt_of_le_nodup (l : List Int) (hs : l.Sorted (· ≤ ·))
    (hn : l.Nodup) : l.Sorted (· < ·) :=
  (List.Pairwise.and hs hn).imp fun h => lt_of_le_of_ne h.1 h.2

theorem load_stations_sorted (inp : LoadInput) (f : FareTable) (st : List Int)
    (h : load_fare_data inp = some (f, st)) :
    st.Sorted (· < ·) ∧ st.Nodup := by
  unfold load_fare_data at h
  by_cases h1 : inp.fileExists = true
  · rw [if_pos h1] at h
    by_cases h2 : (expected_headers.all fun hd => inp.fieldnames.contains hd) = true
    · rw [if_pos h2] at h
      injection h with h
      have hst : st = (inp.rows.foldl processRow ([], [])).2.insertionSort (· ≤ ·) :=
        (congrArg Prod.snd h).symm
      have hnd0 : (inp.rows.foldl processRow ([], [])).2.Nodup :=
        fold_stations_nodup _ _ List.nodup_nil
      have hnd : st.Nodup := by
        rw [hst]
        exact ((List.perm_insertionSort _ _).nodup_iff).mpr hnd0
      have hsorted : st.Sorted (· ≤ ·) := by
        rw [hst]
        exact List.sorted_insertionSort _ _
      exact ⟨sorted_lt_of_le_nodup _ hsorted hnd, hnd⟩
    · rw [if_neg h2] at h
      cases h
  · rw [if_neg h1] at h
    cases h

theorem getFare_eq_getStored (tbl : FareTable) (o d : Int) (m : String) :
    getFare tbl o d m = (getStored tbl (o, d) m).bind id := by
  unfold getFare getStored
  cases h1 : findAssoc tbl (o, d) with
  | none => simp
  | some inner => cases h2 : findAssoc inner m <;> simp [h2]

theorem TableNonneg_nil : TableNonneg [] := by
  intro p k q hq
  simp [getStored, findAssoc] at hq

theorem TableNonneg_storeFare (tbl : FareTable) (p : Int × Int) (k : String)
    (f : Field) (h : TableNonneg tbl)
    (hf : ∀ q, f.as_float = some q → 0 ≤ q) :
    TableNonneg (storeFare tbl p k f) := by
  intro p' k' q hq
  rw [getStored_storeFare] at hq
  by_cases hc : f.str_nonempty = true ∧ p = p' ∧ k = k'
  · rw [if_pos hc] at hq
    injection hq with hq
    exact hf q hq
  · rw [if_neg hc] at hq
    exact h _ _ _ hq

theorem TableNonneg_storeRowFares (row : Row) :
    ∀ (tbl : FareTable) (p : Int × Int), TableNonneg tbl →
    (∀ kv ∈ row, ∀ q, kv.2.as_float = some q → 0 ≤ q) →
    TableNonneg (storeRowFares tbl p row) := by
  induction row with
  | nil => intro tbl p h _; exact h
  | cons kv rest ih =>
    intro tbl p h hr
    have hcons : storeRowFares tbl p (kv :: rest) =
        storeRowFares (if hasFareSubstr kv.1 then storeFare tbl p kv.1 kv.2 else tbl)
          p rest := by
      simp [storeRowFares]
    rw [hcons]
    refine ih _ _ ?_ fun kv' hkv' => hr kv' (List.mem_cons_of_mem _ hkv')
    by_cases hfk : hasFareSubstr kv.1
    · rw [if_pos hfk]
      exact TableNonneg_storeFare _ _ _ _ h (hr kv (List.mem_cons_self _ _))
    · rw [if_neg hfk]
      exact h

theorem TableNonneg_processRow (acc : FareTable × List Int) (row : Row)
    (h : TableNonneg acc.1)
    (hr : ∀ kv ∈ row, ∀ q, kv.2.as_float = some q → 0 ≤ q) :
    TableNonneg (processRow acc row).1 := by
  unfold processRow
  cases h1 : (findAssoc row "SRC_STATION_ID").bind Field.as_int with
  | none => exact h
  | some s =>
    cases h2 : (findAssoc row "DEST_STATION_ID").bind Field.as_int with
    | none => exact h
    | some d => exact TableNonneg_storeRowFares _ _ _ h hr

theorem TableNonneg_fold (rows : List Row) :
    ∀ acc : FareTable × List Int, TableNonneg acc.1 →
    (∀ r ∈ rows, ∀ kv ∈ r, ∀ q, kv.2.as_float = some q → 0 ≤ q) →
    TableNonneg (rows.foldl processRow acc).1 := by
  induction rows with
  | nil => intro acc h _; exact h
  | cons r rest ih =>
    intro acc h hr
    rw [List.foldl_cons]
    exact ih _ (TableNonneg_processRow _ _ h (hr r (List.mem_cons_self _ _)))
      fun r' hr' => hr r' (List.mem_cons_of_mem _ hr')

/-! ## The row-overwrite discipline (duplicate rows) -/

theorem rowEffect_not_mem (rest : Row) (k : String)
    (h : k ∉ rest.map Prod.fst) : rowEffect rest k = none := by
  induction rest with
  | nil => rfl
  | cons kv r ih =>
    have h1 : k ∉ r.map Prod.fst := fun hm => h (List.mem_cons_of_mem _ hm)
    have h2 : ¬ kv.1 = k := fun he => h (by simp [← he])
    simp [rowEffect, ih h1, h2]

theorem rowEffect_of_findAssoc (row : Row) (k : String) (f : Field)
    (hnd : (row.map Prod.fst).Nodup) (hk : hasFareSubstr k = true)
    (hf : findAssoc row k = some f) :
    rowEffect row k = if f.str_nonempty then some f.as_float else none := by
  induction row with
  | nil => cases hf
  | cons kv rest ih =>
    obtain ⟨kk, kf⟩ := kv
    by_cases hkk : kk = k
    · subst hkk
      have hff : kf = f := by simpa [findAssoc] using hf
      subst hff
      have hknot : kk ∉ rest.map Prod.fst :=
        (List.nodup_cons.mp (by simpa using hnd)).1
      cases hne : kf.str_nonempty <;>
        simp [rowEffect, rowEffect_not_mem rest kk hknot, hk, hne]
    · have hf' : findAssoc rest k = some f := by simpa [findAssoc, hkk] using hf
      have hnd' : (rest.map Prod.fst).Nodup :=
        (List.nodup_cons.mp (by simpa using hnd)).2
      have ihr := ih hnd' hf'
      have hskip : rowEffect ((kk, kf) :: rest) k = rowEffect rest k := by
        cases hre : rowEffect rest k <;> simp [rowEffect, hre, hkk]
      rw [hskip, ihr]

/-! ## Statistics -/

theorem listMax_eq_none_iff (l : List ℚ) : listMax l = none ↔ l = [] := by
  cases l <;> simp [listMax]

theorem mean_bounds (l : List ℚ) (mn mx : ℚ) (hne : l ≠ [])
    (hmn : listMin l = some mn) (hmx : listMax l = some mx) :
    mn ≤ meanQ l ∧ meanQ l ≤ mx := by
  have hlen : 0 < l.length := List.length_pos.mpr hne
  have hlenq : 0 < (l.length : ℚ) := by exact_mod_cast hlen
  have h1 : l.length • mn ≤ l.sum :=
    List.card_nsmul_le_sum l mn fun x hx => (listMin_spec l mn hmn).2 x hx
  have h2 : l.sum ≤ l.length • mx :=
    List.sum_le_card_nsmul l mx fun x hx => listMax_spec l mx hmx x hx
  rw [nsmul_eq_mul] at h1 h2
  unfold meanQ
  constructor
  · rw [le_div_iff₀ hlenq]
    linarith
  · rw [div_le_iff₀ hlenq]
    linarith

theorem getD_mem_of_lt (l : List ℚ) (i : Nat) (h : i < l.length) :
    l.getD i 0 ∈ l := by
  rw [List.getD_eq_getElem?_getD, List.getElem?_eq_getElem h]
  exact List.getElem_mem h

theorem median_bounds (l : List ℚ) (mn mx : ℚ) (hne : l ≠ [])
    (hmn : listMin l = some mn) (hmx : listMax l = some mx) :
    mn ≤ medianQ l ∧ medianQ l ≤ mx := by
  have hperm : List.Perm (l.insertionSort (· ≤ ·)) l := List.perm_insertionSort _ _
  have hlen : (l.insertionSort (· ≤ ·)).length = l.length := hperm.length_eq
  have hpos : 0 < (l.insertionSort (· ≤ ·)).length := by
    rw [hlen]
    exact List.length_pos.mpr hne
  have hbounds : ∀ i, i < (l.insertionSort (· ≤ ·)).length →
      mn ≤ (l.insertionSort (· ≤ ·)).getD i 0 ∧
      (l.insertionSort (· ≤ ·)).getD i 0 ≤ mx := by
    intro i hi
    have hmemi : (l.insertionSort (· ≤ ·)).getD i 0 ∈ l :=
      hperm.mem_iff.mp (getD_mem_of_lt _ i hi)
    exact ⟨(listMin_spec l mn hmn).2 _ hmemi, listMax_spec l mx hmx _ hmemi⟩
  unfold medianQ
  by_cases hodd : (l.insertionSort (· ≤ ·)).length % 2 = 1
  · rw [if_pos hodd]
    exact hbounds _ (Nat.div_lt_self hpos one_lt_two)
  · rw [if_neg hodd]
    have hi2 : (l.insertionSort (· ≤ ·)).length / 2 <
        (l.insertionSort (· ≤ ·)).length := Nat.div_lt_self hpos one_lt_two
    have hi1 : (l.insertionSort (· ≤ ·)).length / 2 - 1 <
        (l.insertionSort (· ≤ ·)).length := lt_of_le_of_lt (Nat.sub_le _ _) hi2
    have hb1 := hbounds _ hi1
    have hb2 := hbounds _ hi2
    constructor
    · have ha := hb1.1
      have hb := hb2.1
      linarith
    · have ha := hb1.2
      have hb := hb2.2
      linarith

/-! ## The raw loader: exception structure, and agreement with
`load_fare_data` on well-shaped rows -/

theorem findAssoc_toRaw (r : Row) (k : String) :
    findAssoc (Row.toRaw r) (some k) = (findAssoc r k).map Cell.str := by
  induction r with
  | nil => rfl
  | cons kv rest ih =>
    obtain ⟨kk, kf⟩ := kv
    show findAssoc ((some kk, Cell.str kf) :: Row.toRaw rest) (some k) = _
    by_cases h : kk = k
    · subst h
      simp [findAssoc]
    · have hs : ¬ (some kk = some k) := fun he => h (Option.some.inj he)
      simp [findAssoc, h, hs, ih]

theorem storeRowFaresRaw_toRaw (r : Row) :
    ∀ (tbl : FareTable) (p : Int × Int),
    storeRowFaresRaw p tbl (Row.toRaw r) = some (storeRowFares tbl p r) := by
  induction r with
  | nil => intro tbl p; rfl
  | cons kv rest ih =>
    intro tbl p
    obtain ⟨kk, kf⟩ := kv
    have hcons : storeRowFares tbl p ((kk, kf) :: rest) =
        storeRowFares (if hasFareSubstr kk then storeFare tbl p kk kf else tbl)
          p rest := by
      simp [storeRowFares]
    rw [hcons]
    show storeRowFaresRaw p tbl ((some kk, Cell.str kf) :: Row.toRaw rest) = _
    by_cases h : hasFareSubstr kk
    · simp [storeRowFaresRaw, h, ih]
    · simp [storeRowFaresRaw, h, ih]

theorem parseStation_toRaw (r : Row) (k : String) :
    parseStation (Row.toRaw r) k =
      match (findAssoc r k).bind Field.as_int with
      | some n => IntParse.ok n
      | none => IntParse.caught := by
  unfold parseStation
  rw [findAssoc_toRaw]
  cases h1 : findAssoc r k with
  | none => rfl
  | some f => cases h2 : f.as_int <;> rfl

theorem processRowRaw_toRaw (acc : FareTable × List Int) (r : Row) :
    processRowRaw acc (Row.toRaw r) = some (processRow acc r) := by
  unfold processRowRaw processRow
  rw [parseStation_toRaw, parseStation_toRaw]
  cases h1 : (findAssoc r "SRC_STATION_ID").bind Field.as_int with
  | none => rfl
  | some s =>
    cases h2 : (findAssoc r "DEST_STATION_ID").bind Field.as_int with
    | none => rfl
    | some d =>
      simp [storeRowFaresRaw_toRaw]

theorem loadRowsRaw_toRaw (rows : List Row) :
    ∀ acc : FareTable × List Int,
    loadRowsRaw (rows.map Row.toRaw) acc = some (rows.foldl processRow acc) := by
  induction rows with
  | nil => intro acc; rfl
  | cons r rest ih =>
    intro acc
    rw [List.foldl_cons]
    have hstep : loadRowsRaw ((r :: rest).map Row.toRaw) acc =
        loadRowsRaw (rest.map Row.toRaw) (processRow acc r) := by
      show (match processRowRaw acc (Row.toRaw r) with
            | some acc2 => loadRowsRaw (rest.map Row.toRaw) acc2
            | none => none) = _
      rw [processRowRaw_toRaw]
    rw [hstep, ih]

theorem loadRaw_toRaw (inp : LoadInput) :
    load_fare_data_raw ⟨inp.fileExists, inp.fieldnames, inp.rows.map Row.toRaw⟩ =
      load_fare_data inp := by
  unfold load_fare_data_raw load_fare_data
  cases hfe : inp.fileExists with
  | false => rfl
  | true =>
    by_cases h2 : (expected_headers.all fun h => inp.fieldnames.contains h) = true
    · rw [if_pos rfl, if_pos rfl, if_pos h2, if_pos h2, loadRowsRaw_toRaw]
    · rw [if_pos rfl, if_pos rfl, if_neg h2, if_neg h2]

theorem storeRowFaresRaw_ne_none (row : RawRow)
    (hkeys : ∀ kv ∈ row, kv.1 ≠ none) :
    ∀ (tbl : FareTable) (p : Int × Int), storeRowFaresRaw p tbl row ≠ none := by
  induction row with
  | nil =>
    intro tbl p h
    simp [storeRowFaresRaw] at h
  | cons kv rest ih =>
    obtain ⟨ko, c⟩ := kv
    cases ko with
    | none => exact absurd rfl (hkeys (none, c) (List.mem_cons_self _ _))
    | some k =>
      intro tbl p
      have ihr := ih fun kv h => hkeys kv (List.mem_cons_of_mem _ h)
      by_cases hf : hasFareSubstr k
      · cases c with
        | str f =>
          simpa [storeRowFaresRaw, hf] using ihr (storeFare tbl p k f) p
        | pynone =>
          simpa [storeRowFaresRaw, hf] using ihr tbl p
      · simpa [storeRowFaresRaw, hf] using ihr tbl p

theorem processRowRaw_skip (row : RawRow) (acc : FareTable × List Int)
    (h : parseStation row "SRC_STATION_ID" = IntParse.caught) :
    processRowRaw acc row = some acc := by
  unfold processRowRaw
  rw [h]

theorem processRowRaw_ne_none (row : RawRow) (acc : FareTable × List Int)
    (hs : parseStation row "SRC_STATION_ID" ≠ IntParse.uncaught)
    (hd : parseStation row "DEST_STATION_ID" ≠ IntParse.uncaught)
    (hkeys : ∀ kv ∈ row, kv.1 ≠ none) :
    processRowRaw acc row ≠ none := by
  unfold processRowRaw
  cases h1 : parseStation row "SRC_STATION_ID" with
  | uncaught => exact absurd h1 hs
  | caught => simp
  | ok s =>
    cases h2 : parseStation row "DEST_STATION_ID" with
    | uncaught => exact absurd h2 hd
    | caught => simp
    | ok d =>
      cases hst : storeRowFaresRaw (s, d) acc.1 row with
      | none => exact absurd hst (storeRowFaresRaw_ne_none row hkeys acc.1 (s, d))
      | some tbl => simp [hst]

theorem loadRowsRaw_ne_none (rows : List RawRow)
    (hall : ∀ r ∈ rows, ∀ acc : FareTable × List Int, processRowRaw acc r ≠ none) :
    ∀ acc, loadRowsRaw rows acc ≠ none := by
  induction rows with
  | nil =>
    intro acc h
    simp [loadRowsRaw] at h
  | cons r rest ih =>
    intro acc
    cases hp : processRowRaw acc r with
    | none => exact absurd hp (hall r (List.mem_cons_self _ _) acc)
    | some acc2 =>
      have hrest := ih (fun r2 hr2 acc2 => hall r2 (List.mem_cons_of_mem _ hr2) acc2) acc2
      simpa [loadRowsRaw, hp] using hrest

/-! ## Claims -/

/-- C1: for every ordered pair (o, d) with a usable direct fare, a saving is
recorded iff some intermediate distinct from o and d has usable fares on
both legs and the minimum combined fare over all such intermediates is
strictly below the direct fare; when the minimum equals (or exceeds) the
direct fare nothing is recorded; a recorded saving equals
direct − min combined; and the savings recorded by `analyze_savings` are
exactly the per-pair savings over all ordered pairs. -/
theorem claim_C1 (fares : FareTable) (stations : List Int) (m : String)
    (o d : Int) (direct : ℚ) (hd : getFare fares o d m = some direct) :
    (pairSaving fares stations m o d ≠ none ↔
      ∃ c, listMin (usableCombined fares stations m o d) = some c ∧ c < direct) ∧
    (∀ c, listMin (usableCombined fares stations m o d) = some c →
      (c < direct → pairSaving fares stations m o d = some (direct - c)) ∧
      (direct ≤ c → pairSaving fares stations m o d = none)) ∧
    (∀ r, analyze_savings fares stations m = some r →
      r.savings_list = (perm2 stations).filterMap
        fun p => pairSaving fares stations m p.1 p.2) := by
  refine ⟨?_, ?_, ?_⟩
  · rw [pairSaving_direct _ _ _ _ _ _ hd]
    cases hmn : listMin (usableCombined fares stations m o d) with
    | none => simp
    | some c =>
      by_cases hlt : c < direct
      · simp [hlt]
      · simp [hlt]
  · intro c hc
    rw [pairSaving_direct _ _ _ _ _ _ hd, hc]
    constructor
    · intro hlt
      simp [hlt]
    · intro hge
      simp [not_lt.mpr hge]
  · intro r hr
    rw [analyze_savings_some _ _ _ _ hr]

/-- Witness for C1 at Scenario 1's pair (1, 3): the direct fare 20 is
usable, the only usable intermediate gives combined fare 13 < 20, and a
saving is recorded. -/
theorem claim_C1_witness :
    pairSaving fares0 [1, 2, 3] "OCT_ADT_FARE" 1 3 ≠ none := by
  have h := claim_C1 fares0 [1, 2, 3] "OCT_ADT_FARE" 1 3 20 (by decide)
  exact h.1.mpr ⟨13, by norm_num [listMin, usableCombined, usablePairs,
    getFare, fares0, findAssoc, List.filterMap_cons, List.filterMap_nil], by norm_num⟩

/-- C2: on Scenario 1 (stations {1,2,3}, fares 1→2 = 10, 2→3 = 3,
1→3 = 20) the analysis records exactly one saving, of 7, for the pair
(1, 3); the pairs (1, 2) and (2, 3) record none. -/
theorem claim_C2 :
    analyze_savings fares0 [1, 2, 3] "OCT_ADT_FARE" = some ⟨1, 6, [7]⟩ ∧
    pairSaving fares0 [1, 2, 3] "OCT_ADT_FARE" 1 3 = some 7 ∧
    pairSaving fares0 [1, 2, 3] "OCT_ADT_FARE" 1 2 = none ∧
    pairSaving fares0 [1, 2, 3] "OCT_ADT_FARE" 2 3 = none := by
  refine ⟨?_, ?_, ?_, ?_⟩ <;>
    norm_num [analyze_savings, fares0, perm2, pairStep, pairSaving, innerStep,
      getFare, findAssoc, ltInf]

/-- C3: when the analysis runs, the total-pairs count equals S·(S−1) for a
duplicate-free station list of length S; the savings sequence is exactly
the per-pair savings over all ordered pairs (so pairs with no usable
direct fare contribute nothing), and the saving-pairs count is its
length. -/
theorem claim_C3 (fares : FareTable) (stations : List Int) (m : String)
    (hnd : stations.Nodup) :
    ∀ r, analyze_savings fares stations m = some r →
      r.total_pairs_analyzed = stations.length * (stations.length - 1) ∧
      r.savings_list = (perm2 stations).filterMap
        (fun p => pairSaving fares stations m p.1 p.2) ∧
      r.saving_pairs_count = r.savings_list.length ∧
      (∀ o d, getFare fares o d m = none →
        pairSaving fares stations m o d = none) := by
  intro r hr
  rw [analyze_savings_some _ _ _ _ hr]
  exact ⟨perm2_length _ hnd, rfl, rfl,
    fun o d h => pairSaving_none_of_direct _ _ _ _ _ h⟩

/-- Witness for C3 on Scenario 1: 3 stations, 6 ordered pairs. -/
theorem claim_C3_witness :
    (⟨1, 6, [7]⟩ : AnalysisResult).total_pairs_analyzed = 3 * (3 - 1) := by
  have h := claim_C3 fares0 [1, 2, 3] "OCT_ADT_FARE" (by decide) ⟨1, 6, [7]⟩
    (by norm_num [analyze_savings, fares0, perm2, pairStep, pairSaving,
      innerStep, getFare, findAssoc, ltInf])
  exact h.1

/-- C4: every amount in the savings sequence is strictly positive. -/
theorem claim_C4 (fares : FareTable) (stations : List Int) (m : String)
    (r : AnalysisResult) (x : ℚ)
    (hr : analyze_savings fares stations m = some r)
    (hx : x ∈ r.savings_list) : 0 < x := by
  rw [analyze_savings_some _ _ _ _ hr] at hx
  simp only [List.mem_filterMap] at hx
  obtain ⟨p, _, hp⟩ := hx
  exact pairSaving_pos _ _ _ _ _ _ hp

/-- Witness for C4: the saving 7 recorded on Scenario 1 is positive. -/
theorem claim_C4_witness : (0 : ℚ) < 7 :=
  claim_C4 fares0 [1, 2, 3] "OCT_ADT_FARE" ⟨1, 6, [7]⟩ 7
    (by norm_num [analyze_savings, fares0, perm2, pairStep, pairSaving,
      innerStep, getFare, findAssoc, ltInf])
    (by simp)

/-- C5: the analysis is a pure function of the fare table, station list and
method (determinism); the loader returns the station set sorted strictly
ascending, fixing the iteration order; when several intermediates tie for
the minimum combined fare the loop retains the earliest one in iteration
order (the first achiever of the minimum); and the recorded amount depends
only on the minimum combined fare, not on which intermediate achieved it. -/
theorem claim_C5 :
    (∀ (fares1 fares2 : FareTable) (st1 st2 : List Int) (m : String),
      fares1 = fares2 → st1 = st2 →
      analyze_savings fares1 st1 m = analyze_savings fares2 st2 m) ∧
    (∀ (inp : LoadInput) (f : FareTable) (st : List Int),
      load_fare_data inp = some (f, st) → st.Sorted (· < ·)) ∧
    (∀ (fares : FareTable) (stations : List Int) (m : String) (o d : Int),
      stations.foldl (innerStep fares m o d) (none, none) =
        (usablePairs fares stations m o d).foldl minStep (none, none)) ∧
    (∀ (l : List (Int × ℚ)) (mn : ℚ), listMin (l.map Prod.snd) = some mn →
      l.foldl minStep (none, none) =
        (some mn, (l.find? fun p => p.2 = mn).map Prod.fst)) ∧
    (∀ (fares : FareTable) (stations : List Int) (m : String) (o d : Int)
        (direct : ℚ), getFare fares o d m = some direct →
      pairSaving fares stations m o d =
        match listMin (usableCombined fares stations m o d) with
        | none => none
        | some c => if c < direct then some (direct - c) else none) := by
  refine ⟨?_, ?_, ?_, ?_, ?_⟩
  · intro f1 f2 s1 s2 m h1 h2
    rw [h1, h2]
  · intro inp f st h
    exact (load_stations_sorted inp f st h).1
  · intro fares stations m o d
    exact foldl_innerStep_eq fares m o d stations _
  · intro l mn h
    rw [foldl_minStep_none, h]
  · intro fares stations m o d direct h
    exact pairSaving_direct _ _ _ _ _ _ h

/-- Witness for C5: determinism on Scenario 1, and the tie-break fold on a
list with a tie retains the earliest achiever of the minimum. -/
theorem claim_C5_witness :
    analyze_savings fares0 [1, 2, 3] "OCT_ADT_FARE" =
      analyze_savings fares0 [1, 2, 3] "OCT_ADT_FARE" ∧
    [((5 : Int), (3 : ℚ)), ((9 : Int), (3 : ℚ))].foldl minStep (none, none) =
      (some 3, some 5) := by
  constructor
  · exact claim_C5.1 fares0 fares0 [1, 2, 3] [1, 2, 3] "OCT_ADT_FARE" rfl rfl
  · have h := claim_C5.2.2.2.1 [((5 : Int), (3 : ℚ)), ((9 : Int), (3 : ℚ))] 3
      (by norm_num [listMin])
    rw [h]
    norm_num [List.find?_cons]

/-- C6: when the savings sequence is non-empty the statistics satisfy
min ≤ median ≤ max and min ≤ mean ≤ max; on the empty sequence no
statistics are produced at all (the distinct "no savings found" outcome). -/
theorem claim_C6 (l : List ℚ) :
    (l = [] → computeStats l = none) ∧
    (∀ st, computeStats l = some st →
      st.min_saving ≤ st.median_saving ∧ st.median_saving ≤ st.max_saving ∧
      st.min_saving ≤ st.avg_saving ∧ st.avg_saving ≤ st.max_saving) := by
  constructor
  · intro h
    subst h
    rfl
  · intro st hst
    by_cases hne : l = []
    · subst hne
      simp [computeStats] at hst
    · have hmn : ∃ mn, listMin l = some mn := by
        cases h : listMin l with
        | none => exact absurd ((listMin_eq_none_iff l).mp h) hne
        | some mn => exact ⟨mn, rfl⟩
      have hmx : ∃ mx, listMax l = some mx := by
        cases h : listMax l with
        | none => exact absurd ((listMax_eq_none_iff l).mp h) hne
        | some mx => exact ⟨mx, rfl⟩
      obtain ⟨mn, hmn⟩ := hmn
      obtain ⟨mx, hmx⟩ := hmx
      have hst' : st = ⟨mn, mx, meanQ l, medianQ l⟩ := by
        unfold computeStats at hst
        rw [if_neg (by simpa using hne)] at hst
        injection hst with h
        rw [← h]
        simp [hmn, hmx]
      subst hst'
      have hb1 := median_bounds l mn mx hne hmn hmx
      have hb2 := mean_bounds l mn mx hne hmn hmx
      exact ⟨hb1.1, hb1.2, hb2.1, hb2.2⟩

/-- Witness for C6 on the singleton savings sequence [7]. -/
theorem claim_C6_witness : (7 : ℚ) ≤ 7 := by
  have h := (claim_C6 [(7 : ℚ)]).2 ⟨7, 7, 7, 7⟩
    (by norm_num [computeStats, listMin, listMax, meanQ, medianQ])
  exact h.1

/-- C7 counterexample: two row-level-only failure modes refute the claim.
On `inp_short` the file exists and the header is complete, yet one data
row is short: `csv.DictReader` fills its destination column with `None`,
`int(None)` raises `TypeError`, which escapes the row-level handler
(line 42 catches only `ValueError`/`KeyError`) into the generic handler
of lines 48–50 — so a row-level problem DOES produce the 'no data'
sentinel, aborting the whole load and discarding the good first row.
And on `inp_badrow` (one unparseable station id, recovered locally) the
loader returns empty-but-successful results, yet the caller still
terminates without analysis because `if fare_data and station_list:`
treats the empty dict as falsy. -/
theorem claim_C7_cex :
    inp_short.fileExists = true ∧
    (expected_headers.all fun h => inp_short.fieldnames.contains h) = true ∧
    load_fare_data_raw inp_short = none ∧
    runsAnalysisRaw inp_short = false ∧
    load_fare_data inp_badrow = some ([], []) ∧
    runsAnalysis inp_badrow = false := by
  exact ⟨rfl, by decide, by decide, by decide, by decide, by decide⟩

/-- C7 (amended): source-level problems (missing file, missing required
header columns) return the 'no data' sentinel.  Row-level problems split
by the exception they raise: a row whose station id raises
`ValueError`/`KeyError` is recovered locally — the row is skipped and
loading continues, and rows free of `TypeError` sources never abort the
load — but a row-level malformation raising `TypeError` (a short row's
`None` station field, or a long row's cells under the `None` restkey)
escapes the row-level handler into the generic handler of lines 48–50
and also produces the sentinel, aborting the whole load.  The caller
runs the analysis iff the load succeeded and both results are
non-empty. -/
theorem claim_C7 :
    (∀ inp : RawLoadInput,
      inp.fileExists = false ∨
        (expected_headers.all fun h => inp.fieldnames.contains h) = false →
      load_fare_data_raw inp = none) ∧
    (∀ inp : RawLoadInput, load_fare_data_raw inp = none ↔
      inp.fileExists = false ∨
        (expected_headers.all fun h => inp.fieldnames.contains h) = false ∨
        loadRowsRaw inp.rows ([], []) = none) ∧
    (∀ (row : RawRow) (acc : FareTable × List Int),
      parseStation row "SRC_STATION_ID" = IntParse.caught →
      processRowRaw acc row = some acc) ∧
    (∀ inp : RawLoadInput,
      inp.fileExists = true →
      (expected_headers.all fun h => inp.fieldnames.contains h) = true →
      (∀ r ∈ inp.rows,
        parseStation r "SRC_STATION_ID" ≠ IntParse.uncaught ∧
        parseStation r "DEST_STATION_ID" ≠ IntParse.uncaught ∧
        ∀ kv ∈ r, kv.1 ≠ none) →
      load_fare_data_raw inp ≠ none) ∧
    (∀ inp : RawLoadInput, runsAnalysisRaw inp = true ↔
      ∃ f st, load_fare_data_raw inp = some (f, st) ∧ f ≠ [] ∧ st ≠ []) := by
  have hiff : ∀ inp : RawLoadInput, load_fare_data_raw inp = none ↔
      inp.fileExists = false ∨
        (expected_headers.all fun h => inp.fieldnames.contains h) = false ∨
        loadRowsRaw inp.rows ([], []) = none := by
    intro inp
    unfold load_fare_data_raw
    cases h1 : inp.fileExists with
    | false => simp
    | true =>
      cases h2 : (expected_headers.all fun h => inp.fieldnames.contains h) with
      | false => simp
      | true =>
        cases h3 : loadRowsRaw inp.rows ([], []) with
        | none => simp [h3]
        | some fs => simp [h3]
  refine ⟨?_, hiff, ?_, ?_, ?_⟩
  · intro inp h
    rw [hiff]
    rcases h with h | h
    · exact Or.inl h
    · exact Or.inr (Or.inl h)
  · intro row acc h
    exact processRowRaw_skip row acc h
  · intro inp h1 h2 hall hnone
    rcases (hiff inp).mp hnone with h | h | h
    · rw [h1] at h
      cases h
    · rw [h2] at h
      cases h
    · refine loadRowsRaw_ne_none inp.rows ?_ ([], []) h
      intro r hr acc
      exact processRowRaw_ne_none r acc (hall r hr).1 (hall r hr).2.1 (hall r hr).2.2
  · intro inp
    unfold runsAnalysisRaw
    cases hl : load_fare_data_raw inp with
    | none => simp [hl]
    | some pr =>
      obtain ⟨f, st⟩ := pr
      simp [hl]
      constructor
      · rintro ⟨hf, hst⟩
        exact ⟨f, st, ⟨rfl, rfl⟩, hf, hst⟩
      · rintro ⟨f1, st1, ⟨rfl, rfl⟩, hf, hst⟩
        exact ⟨hf, hst⟩

/-- Witness for C7: a missing file yields the sentinel, and a source with
one well-shaped row (no TypeError source) does not. -/
theorem claim_C7_witness :
    load_fare_data_raw ⟨false, [], []⟩ = none ∧
    load_fare_data_raw
      ⟨true, ["SRC_STATION_ID", "DEST_STATION_ID", "OCT_ADT_FARE"],
       [row_raw_ok]⟩ ≠ none := by
  constructor
  · exact claim_C7.1 ⟨false, [], []⟩ (Or.inl rfl)
  · exact claim_C7.2.2.2.1
      ⟨true, ["SRC_STATION_ID", "DEST_STATION_ID", "OCT_ADT_FARE"],
       [row_raw_ok]⟩ rfl (by decide) (by decide)

/-- C8: an empty fare field stores nothing (never 0.0) — `storeFare` leaves
the table unchanged when the field string is falsy; and the analyzer treats
a stored invalid marker exactly like a missing entry: both read back as
"no usable fare" through `getFare`, and the per-pair computation depends
on the table only through `getFare`. -/
theorem claim_C8 :
    (∀ (tbl : FareTable) (p : Int × Int) (k : String) (f : Field),
      f.str_nonempty = false → storeFare tbl p k f = tbl) ∧
    (∀ (tbl : FareTable) (o d : Int) (m : String),
      getStored tbl (o, d) m = some none → getFare tbl o d m = none) ∧
    (∀ (tbl : FareTable) (o d : Int) (m : String),
      getStored tbl (o, d) m = none → getFare tbl o d m = none) ∧
    (∀ (f1 f2 : FareTable) (stations : List Int) (m : String) (o d : Int),
      (∀ x y : Int, getFare f1 x y m = getFare f2 x y m) →
      pairSaving f1 stations m o d = pairSaving f2 stations m o d) := by
  refine ⟨fun tbl p k f h => storeFare_of_empty tbl p k f h, ?_, ?_, ?_⟩
  · intro tbl o d m h
    rw [getFare_eq_getStored, h]
    rfl
  · intro tbl o d m h
    rw [getFare_eq_getStored, h]
    rfl
  · intro f1 f2 stations m o d hg
    unfold pairSaving
    rw [hg o d]
    cases getFare f2 o d m with
    | none => rfl
    | some direct =>
      have hfold : ∀ st, stations.foldl (innerStep f1 m o d) st =
          stations.foldl (innerStep f2 m o d) st := by
        induction stations with
        | nil => intro st; rfl
        | cons i rest ih =>
          intro st
          rw [List.foldl_cons, List.foldl_cons]
          have hstep : innerStep f1 m o d st i = innerStep f2 m o d st i := by
            unfold innerStep
            rw [hg o i, hg i d]
          rw [hstep, ih]
      rw [hfold]

/-- Witness for C8: an empty field stores nothing, and a stored invalid
marker reads back as "no usable fare". -/
theorem claim_C8_witness :
    storeFare [] (1, 2) "OCT_ADT_FARE" ⟨false, none, none⟩ = [] ∧
    getFare [((1, 2), [("OCT_ADT_FARE", none)])] 1 2 "OCT_ADT_FARE" = none := by
  constructor
  · exact claim_C8.1 [] (1, 2) "OCT_ADT_FARE" ⟨false, none, none⟩ rfl
  · exact claim_C8.2.1 [((1, 2), [("OCT_ADT_FARE", none)])] 1 2 "OCT_ADT_FARE"
      (by decide)

/-- C9 counterexample: the loader performs no sign validation.  On a
well-formed source whose fare field reads "-5", the built table holds the
negative amount −5, refuting "every fare amount present in the fare table
is … ≥ 0 for every input file". -/
theorem claim_C9_cex :
    load_fare_data inp_neg =
      some ([((1, 2), [("OCT_ADT_FARE", some (-5))])], [1, 2]) ∧
    getFare [((1, 2), [("OCT_ADT_FARE", some (-5))])] 1 2 "OCT_ADT_FARE" =
      some (-5) ∧
    ((-5 : ℚ) < 0) := by
  exact ⟨by decide, by decide, by norm_num⟩

/-- C9 (amended): every amount stored by the loader is exactly the parsed
value of some input fare field — no sign check is applied — so the
invariant holds conditionally: if every parseable fare field of the input
is non-negative, then every amount readable from the built table is
non-negative. -/
theorem claim_C9 (inp : LoadInput)
    (hnn : ∀ r ∈ inp.rows, ∀ kv ∈ r, ∀ q : ℚ, kv.2.as_float = some q → 0 ≤ q) :
    ∀ (tbl : FareTable) (st : List Int), load_fare_data inp = some (tbl, st) →
      ∀ (o d : Int) (m : String) (q : ℚ), getFare tbl o d m = some q → 0 ≤ q := by
  intro tbl st hload o d m q hq
  have htn : TableNonneg tbl := by
    unfold load_fare_data at hload
    by_cases h1 : inp.fileExists = true
    · rw [if_pos h1] at hload
      by_cases h2 : (expected_headers.all fun h => inp.fieldnames.contains h) = true
      · rw [if_pos h2] at hload
        injection hload with hload
        have htbl : tbl = (inp.rows.foldl processRow ([], [])).1 :=
          (congrArg Prod.fst hload).symm
        rw [htbl]
        exact TableNonneg_fold _ _ TableNonneg_nil hnn
      · rw [if_neg h2] at hload
        cases hload
    · rw [if_neg h1] at hload
      cases hload
  rw [getFare_eq_getStored] at hq
  cases hs : getStored tbl (o, d) m with
  | none =>
    rw [hs] at hq
    cases hq
  | some v =>
    rw [hs] at hq
    simp at hq
    rw [hq] at hs
    exact htn _ _ _ hs

/-- Witness for C9: on a source whose only fare field parses to 10 ≥ 0,
the loaded table's entry is non-negative. -/
theorem claim_C9_witness : (0 : ℚ) ≤ 10 := by
  refine claim_C9 inp_pos ?_ [((1, 2), [("OCT_ADT_FARE", some 10)])] [1, 2]
    (by decide) 1 2 "OCT_ADT_FARE" 10 (by decide)
  intro r hr kv hkv q hq
  simp only [inp_pos, List.mem_singleton] at hr
  subst hr
  simp only [row_dup1, List.mem_cons, List.not_mem_nil, or_false] at hkv
  rcases hkv with h | h | h
  · rw [h] at hq
    cases hq
  · rw [h] at hq
    cases hq
  · rw [h] at hq
    injection hq with hq
    rw [← hq]
    norm_num

/-- C10: when two rows carry the same (origin, destination) pair, the value
stored for a fare column k is the one derived from the LAST row whose k
field is non-empty — a later parseable value or later invalid marker
overwrites an earlier one — while a later empty field leaves the earlier
stored value unchanged (and if no row stored k, the entry is absent). -/
theorem claim_C10 (hdrs : List String) (r1 r2 : Row) (s d : Int) (k : String)
    (f1 f2 : Field) (tbl : FareTable) (st : List Int)
    (h1s : (findAssoc r1 "SRC_STATION_ID").bind Field.as_int = some s)
    (h1d : (findAssoc r1 "DEST_STATION_ID").bind Field.as_int = some d)
    (h2s : (findAssoc r2 "SRC_STATION_ID").bind Field.as_int = some s)
    (h2d : (findAssoc r2 "DEST_STATION_ID").bind Field.as_int = some d)
    (hk : hasFareSubstr k = true)
    (hnd1 : (r1.map Prod.fst).Nodup) (hnd2 : (r2.map Prod.fst).Nodup)
    (hf1 : findAssoc r1 k = some f1) (hf2 : findAssoc r2 k = some f2)
    (hload : load_fare_data ⟨true, hdrs, [r1, r2]⟩ = some (tbl, st)) :
    getStored tbl (s, d) k =
      if f2.str_nonempty then some f2.as_float
      else if f1.str_nonempty then some f1.as_float
      else none := by
  unfold load_fare_data at hload
  simp only at hload
  rw [if_pos trivial] at hload
  by_cases h2 : (expected_headers.all fun h => hdrs.contains h) = true
  · rw [if_pos h2] at hload
    injection hload with hload
    have htbl : tbl = ([r1, r2].foldl processRow ([], [])).1 :=
      (congrArg Prod.fst hload).symm
    have e1 : processRow (([], []) : FareTable × List Int) r1 =
        (storeRowFares [] (s, d) r1, addStation (addStation [] s) d) := by
      unfold processRow
      rw [h1s, h1d]
    have e2 : ∀ acc : FareTable × List Int, processRow acc r2 =
        (storeRowFares acc.1 (s, d) r2, addStation (addStation acc.2 s) d) := by
      intro acc
      unfold processRow
      rw [h2s, h2d]
    rw [htbl]
    simp only [List.foldl_cons, List.foldl_nil, e1, e2]
    rw [getStored_storeRowFares, if_pos rfl,
      rowEffect_of_findAssoc r2 k f2 hnd2 hk hf2]
    cases hne2 : f2.str_nonempty with
    | true => rfl
    | false =>
      simp only [Bool.false_eq_true, if_false]
      rw [getStored_storeRowFares, if_pos rfl,
        rowEffect_of_findAssoc r1 k f1 hnd1 hk hf1]
      cases hne1 : f1.str_nonempty with
      | true => rfl
      | false =>
        simp only [Bool.false_eq_true, if_false]
        rfl
  · rw [if_neg h2] at hload
    cases hload

/-- Witness for C10: rows for (1,2) with fare 10 then an empty fare field —
the stored value stays 10. -/
theorem claim_C10_witness :
    getStored [((1, 2), [("OCT_ADT_FARE", some 10)])] (1, 2) "OCT_ADT_FARE" =
      some (some 10) := by
  have h := claim_C10 ["SRC_STATION_ID", "DEST_STATION_ID", "OCT_ADT_FARE"]
    row_dup1 row_dup2 1 2 "OCT_ADT_FARE" ⟨true, none, some 10⟩ ⟨false, none, none⟩
    [((1, 2), [("OCT_ADT_FARE", some 10)])] [1, 2]
    (by decide) (by decide) (by decide) (by decide) (by decide)
    (by decide) (by decide) (by decide) (by decide) (by decide)
  simpa using h

end MTR
